import Mathlib

/-!
Verification of the dependency-analysis CLI (`src/main.go`, current revision:
the second program in the file).  The Go functions are shallowly embedded as
Lean functions; external effects (file reads, subprocess output, the
filesystem tree walked by `filepath.Walk`) are passed in as explicit values.
-/

set_option maxRecDepth 4000

/-! ## Manifest parsing (`parseGoMod`, main.go lines 272-292) -/

/-- Embedding of `strings.ReplaceAll(s, "\r\n", "\n")` (main.go line 277):
replaces each non-overlapping, leftmost-first occurrence of CR LF by LF. -/
def normalizeCRLF : List Char → List Char
  | [] => []
  | [c] => [c]
  | c :: c2 :: rest =>
    if c = '\r' ∧ c2 = '\n' then '\n' :: normalizeCRLF rest
    else c :: normalizeCRLF (c2 :: rest)

/-- Produces the CRLF-line-ending version of a text: each LF becomes CR LF.
Used to state the cross-platform normalization property. -/
def lfToCrlf : List Char → List Char
  | [] => []
  | c :: rest => if c = '\n' then '\r' :: '\n' :: lfToCrlf rest else c :: lfToCrlf rest

def splitLinesAux (cur : List Char) : List Char → List (List Char)
  | [] => [cur.reverse]
  | c :: rest => if c = '\n' then cur.reverse :: splitLinesAux [] rest
                 else splitLinesAux (c :: cur) rest

/-- Splits a character list into its LF-separated lines. -/
def splitLines (l : List Char) : List (List Char) := splitLinesAux [] l

/-- Result of parsing a manifest: the declared module path and the
toolchain-version (`go`) directive, each optional. -/
structure GoModFile where
  modulePath : Option String
  goVersion : Option String
deriving DecidableEq, Repr

def parseModLine (acc : GoModFile) (line : List Char) : GoModFile :=
  if ("module ".toList).isPrefixOf line then
    { acc with modulePath := some (String.mk (line.drop 7)) }
  else if ("go ".toList).isPrefixOf line then
    { acc with goVersion := some (String.mk (line.drop 3)) }
  else acc

/-- Modelled from the spec: `golang.org/x/mod/modfile.Parse`, the external
manifest-parsing library used at main.go line 279, is not part of this
repository.  Per the spec's manifest grammar ("module declaration line plus
toolchain-version directive"), it extracts the module path from a
`module <path>` line and the toolchain version from a `go <version>` line,
ignoring other lines; an absent directive is reported as `none`
(`modFile.Module == nil` respectively `modFile.Go == nil` in Go). -/
def modfileParse (text : List Char) : GoModFile :=
  (splitLines text).foldl parseModLine { modulePath := none, goVersion := none }

/-- Embedding of `parseGoMod` (main.go lines 272-292).  The manifest file's
bytes (`os.ReadFile`) are the input `data`.  The function normalizes CRLF to
LF, parses, fails when no module declaration is present, and defaults the
toolchain version to `"unknown"` when the `go` directive is absent. -/
def parseGoMod (data : String) : Except String (String × String) :=
  let normalized := normalizeCRLF data.toList
  let mf := modfileParse normalized
  match mf.modulePath with
  | none => Except.error "module declaration not found"
  | some m =>
    let goVersion := match mf.goVersion with
      | none => "unknown"
      | some v => v
    Except.ok (m, goVersion)

/-! ## Dependency reporting (`getDependencies`, main.go lines 294-323) -/

structure ModUpdate where
  path : String
  version : String
deriving DecidableEq, Repr

/-- Embedding of the `ModuleInfo` struct (main.go lines 166-173): one record
per JSON value of the listing command's output stream; `update` is `none`
when the `Update` field is absent (`nil` pointer). -/
structure ModuleInfo where
  path : String
  version : String
  update : Option ModUpdate
deriving DecidableEq, Repr

/-- One JSON value of the buffered output stream as seen by the decode loop:
either a well-formed record or a decode failure with its message. -/
inductive StreamItem
  | ok (m : ModuleInfo)
  | bad (msg : String)

/-- Embedding of `filepath.ToSlash`: replaces each occurrence of the
platform's path separator (`/` on Unix, `\` on Windows) by `/`. -/
def toSlash (separator : Char) (s : String) : String :=
  String.mk (s.toList.map (fun c => if c = separator then '/' else c))

/-- Embedding of `strings.HasPrefix(s, pre)`. -/
def goHasPre (s pre : String) : Bool := pre.toList.isPrefixOf s.toList

def containsChars (sub : List Char) : List Char → Bool
  | [] => sub.isEmpty
  | c :: rest => sub.isPrefixOf (c :: rest) || containsChars sub rest

/-- Embedding of `strings.Contains(s, sub)`: `sub` occurs as a contiguous
substring of `s` (always true for the empty `sub`). -/
def goContains (s sub : String) : Bool := containsChars sub.toList s.toList

/-- The filter condition of the decode loop (main.go lines 316-318): the
record's path, normalized to forward slashes, neither starts with `.` nor
`/` nor contains the normalized workspace directory path. -/
def includeDep (separator : Char) (dir : String) (m : ModuleInfo) : Bool :=
  let normalizedPath := toSlash separator m.path
  let normalizedDir := toSlash separator dir
  !(goHasPre normalizedPath ".") && !(goHasPre normalizedPath "/") &&
    !(goContains normalizedPath normalizedDir)

/-- The decode loop of `getDependencies` (main.go lines 308-321): decode one
JSON value at a time until the input is exhausted, fail on the first decode
error, append each record that passes the filter. -/
def depsLoop (separator : Char) (dir : String) :
    List StreamItem → List ModuleInfo → Except String (List ModuleInfo)
  | [], acc => Except.ok acc
  | StreamItem.bad msg :: _, _ => Except.error ("error decoding dependencies: " ++ msg)
  | StreamItem.ok m :: rest, acc =>
      depsLoop separator dir rest (if includeDep separator dir m then acc ++ [m] else acc)

/-- Embedding of `getDependencies` (main.go lines 294-323).  `goFound` is the
outcome of `exec.LookPath("go")`, `runOk` the exit status of the listing
command, and `stream` the sequence of JSON values in its captured output. -/
def getDependencies (goFound : Bool) (runOk : Bool) (separator : Char) (dir : String)
    (stream : List StreamItem) : Except String (List ModuleInfo) :=
  if goFound = false then Except.error "go command not found"
  else if runOk = false then Except.error "error listing dependencies"
  else depsLoop separator dir stream []

/-! ## Result printing (`printResults`, main.go lines 325-338) -/

def formatDepLine (dep : ModuleInfo) (u : ModUpdate) : String :=
  "- " ++ dep.path ++ ": " ++ dep.version ++ " -> " ++ u.version

/-- The loop of `printResults` (main.go lines 330-334): one line per record
whose update is present, in order, skipping records without one. -/
def printDeps : List ModuleInfo → List String
  | [] => []
  | dep :: rest =>
    (match dep.update with
     | some u => [formatDepLine dep u]
     | none => []) ++ printDeps rest

/-- Embedding of `printResults` (main.go lines 325-338), as the list of lines
written to standard output. -/
def printResults (moduleName goVersion : String) (deps : List ModuleInfo) : List String :=
  ("Module: " ++ moduleName) :: ("Go Module Version: " ++ goVersion) ::
  (if 0 < deps.length then
     "Dependencies that can be updated:" :: printDeps deps
   else ["All dependencies are up to date."])

/-- Formalization of the spec's words for `render` (§4.6): two identity
lines; then, for a non-empty record sequence, a header line followed by one
formatted line per record with a present update (absent updates skipped);
for an empty sequence, the single up-to-date line. -/
def renderSpec (moduleName goVersion : String) (deps : List ModuleInfo) : List String :=
  ("Module: " ++ moduleName) :: ("Go Module Version: " ++ goVersion) ::
  (if deps = [] then ["All dependencies are up to date."]
   else "Dependencies that can be updated:" ::
     deps.filterMap (fun dep => dep.update.map (formatDepLine dep)))

/-! ## Workspace acquisition (`createTempDir`, main.go lines 214-223) -/

inductive GOOS
  | windows
  | other
deriving DecidableEq

/-- Modelled from the spec: `os.MkdirTemp(dir, pattern)` with `dir = ""`
(main.go line 222) is a Go standard-library call, not code of this
repository.  It creates a new directory under the platform temp root whose
name is the pattern followed by a fresh unique suffix, and fails when the
directory cannot be created; the suffix chosen by the OS (or the creation
failure, as `none`) is an explicit input of the model. -/
def mkdirTemp (tempRoot pattern : String) (uniqueSuffix : Option String) :
    Except String String :=
  match uniqueSuffix with
  | some suf => Except.ok (tempRoot ++ "/" ++ pattern ++ suf)
  | none => Except.error "mkdirtemp: cannot create directory"

/-- Embedding of `createTempDir` (main.go lines 214-223).  On Windows the
directory is the fixed path `filepath.Join(os.TempDir(), "go-dep-analysis")`
created with `os.MkdirAll` (whose success is the input `mkdirAllOk`); on
every other platform it is a fresh `os.MkdirTemp` directory. -/
def createTempDir (goos : GOOS) (tempRoot : String) (uniqueSuffix : Option String)
    (mkdirAllOk : Bool) : Except String String :=
  match goos with
  | GOOS.windows =>
    if mkdirAllOk then Except.ok (tempRoot ++ "\\" ++ "go-dep-analysis")
    else Except.error "error creating temporary directory: cannot create"
  | GOOS.other => mkdirTemp tempRoot "go-dep-analysis" uniqueSuffix

/-! ## Control flow of `main` after workspace acquisition (main.go lines 186-212)

Go semantics relevant here: `log.Fatalf` prints and then calls `os.Exit(1)`,
and `os.Exit` terminates the process immediately WITHOUT running deferred
functions; deferred functions run only when `main` returns normally (or on a
panic).  The deferred `cleanupTempDir` call at main.go lines 186-190 is
therefore executed only on the normal-return path. -/

inductive ExitKind
  | normalExit
  | fatalExit
deriving DecidableEq, Repr

structure RunTrace where
  cleanupRan : Bool
  exitKind : ExitKind
deriving DecidableEq, Repr

/-- Embedding of `main` (main.go lines 186-212) from the point where
`createTempDir` has succeeded and the cleanup has been deferred.  Each flag
is the success of the corresponding step (clone, findGoMod, parseGoMod,
getDependencies, cleanupTempDir); a failed step calls `log.Fatalf`, i.e.
`os.Exit(1)`, which skips the deferred cleanup. -/
def mainAfterAcquire (cloneOk findOk parseOk depsOk cleanupOk : Bool) : RunTrace :=
  if cloneOk = false then { cleanupRan := false, exitKind := ExitKind.fatalExit }
  else if findOk = false then { cleanupRan := false, exitKind := ExitKind.fatalExit }
  else if parseOk = false then { cleanupRan := false, exitKind := ExitKind.fatalExit }
  else if depsOk = false then { cleanupRan := false, exitKind := ExitKind.fatalExit }
  else if cleanupOk then { cleanupRan := true, exitKind := ExitKind.normalExit }
  else { cleanupRan := true, exitKind := ExitKind.fatalExit }

/-! ## Manifest location (`findGoMod`, main.go lines 253-270)

`filepath.Walk` visits the root, then each directory's entries in lexical
order (Go sorts the names), recursing into subdirectories.  A model tree
lists a directory's children already in that deterministic traversal order.
An `errEntry` child models an entry whose visit hands the walk callback a
non-nil error (e.g. permission denied).  The callback of `findGoMod`
(main.go lines 256-265) returns any such error (aborting the walk), records
the path of a file named `go.mod` and returns `filepath.SkipDir`, and
returns nil otherwise.  Per the `filepath.Walk` implementation, `SkipDir`
returned for a non-directory entry makes the walk of the containing
directory stop (skipping its remaining entries) and propagate `SkipDir`,
which the parent directory's walk treats as "skip that subtree and
continue"; a top-level `SkipDir` is reported as success. -/

mutual
inductive FsNode
  | file (name : String)
  | errEntry (name : String) (msg : String)
  | dir (name : String) (children : FsList)
inductive FsList
  | nil
  | cons (head : FsNode) (tail : FsList)
end

def fsName : FsNode → String
  | FsNode.file n => n
  | FsNode.errEntry n _ => n
  | FsNode.dir n _ => n

inductive WalkRes
  | done
  | skip
  | fail (msg : String)
deriving DecidableEq, Repr

def resOk : WalkRes → Bool
  | WalkRes.fail _ => false
  | _ => true

mutual
/-- Walk of one node at `path`, threading the `goModPath` variable of
`findGoMod` (empty string = not yet assigned). -/
def walkNode (path : String) (node : FsNode) (gmp : String) : String × WalkRes :=
  match node with
  | FsNode.errEntry _ msg => (gmp, WalkRes.fail msg)
  | FsNode.file name =>
      if name = "go.mod" then (path, WalkRes.skip) else (gmp, WalkRes.done)
  | FsNode.dir _ children => walkChildren path children gmp

/-- Walk of a directory's entries at `dirPath`, in order; each entry's path
is `filepath.Join(dirPath, name)`. -/
def walkChildren (dirPath : String) (children : FsList) (gmp : String) : String × WalkRes :=
  match children with
  | FsList.nil => (gmp, WalkRes.done)
  | FsList.cons c rest =>
      match walkNode (dirPath ++ "/" ++ fsName c) c gmp with
      | (g2, WalkRes.done) => walkChildren dirPath rest g2
      | (g2, WalkRes.skip) =>
          match c with
          | FsNode.dir _ _ => walkChildren dirPath rest g2
          | _ => (g2, WalkRes.skip)
      | (g2, WalkRes.fail m) => (g2, WalkRes.fail m)
end

/-- Embedding of `filepath.Walk(root, walkFn)` for `findGoMod`'s callback: a
top-level `SkipDir` outcome is success. -/
def walk (root : String) (tree : FsNode) : String × WalkRes :=
  match walkNode root tree "" with
  | (g, WalkRes.skip) => (g, WalkRes.done)
  | r => r

/-- Embedding of `findGoMod` (main.go lines 253-270): after the walk, an
empty `goModPath` yields the not-found error (note: checked BEFORE the walk
error); otherwise the walk's error, if any, is returned, else the path. -/
def findGoMod (root : String) (tree : FsNode) : Except String String :=
  match walk root tree with
  | (gmp, res) =>
    if gmp = "" then Except.error ("could not find go.mod in " ++ root)
    else match res with
      | WalkRes.fail m => Except.error m
      | _ => Except.ok gmp

mutual
def errFree : FsNode → Bool
  | FsNode.file _ => true
  | FsNode.errEntry _ _ => false
  | FsNode.dir _ cs => errFreeList cs
def errFreeList : FsList → Bool
  | FsList.nil => true
  | FsList.cons c rest => errFree c && errFreeList rest
end

mutual
/-- The sequence of `go.mod` file paths recorded by the (pruned) walk of one
node, in traversal order. -/
def nodeMatches (path : String) (node : FsNode) : List String :=
  match node with
  | FsNode.file name => if name = "go.mod" then [path] else []
  | FsNode.errEntry _ _ => []
  | FsNode.dir _ cs => listMatches path cs
/-- The match sequence of a directory's entries: a matching file ends the
directory's scan (its remaining entries are skipped); a subdirectory
contributes its own match sequence and the scan continues. -/
def listMatches (dirPath : String) (cs : FsList) : List String :=
  match cs with
  | FsList.nil => []
  | FsList.cons c rest =>
    match c with
    | FsNode.file name =>
        if name = "go.mod" then [dirPath ++ "/" ++ name] else listMatches dirPath rest
    | FsNode.errEntry _ _ => listMatches dirPath rest
    | FsNode.dir n cs2 => listMatches (dirPath ++ "/" ++ n) cs2 ++ listMatches dirPath rest
end

/-- Last element of a list, with a default: the final value of a variable
overwritten by each element in turn. -/
def lastD : List String → String → String
  | [], d => d
  | x :: xs, _ => lastD xs x

/-- Counterexample tree for the locate claims: `r/a/go.mod` is encountered
before `r/go.mod` in traversal order. -/
def cexTree : FsNode :=
  FsNode.dir "r"
    (FsList.cons (FsNode.dir "a" (FsList.cons (FsNode.file "go.mod") FsList.nil))
      (FsList.cons (FsNode.file "go.mod") FsList.nil))

/-- Failing tree for the walk-error claim: the single entry of the root
errors (permission denied) and no `go.mod` was recorded first. -/
def errTree : FsNode :=
  FsNode.dir "r" (FsList.cons (FsNode.errEntry "sub" "permission denied") FsList.nil)

/-! ## Theorems -/

theorem toList_mk (l : List Char) : (String.mk l).toList = l := rfl

theorem normalizeCRLF_cons (c : Char) (l : List Char) (hc : c ≠ '\r') :
    normalizeCRLF (c :: l) = c :: normalizeCRLF l := by
  cases l with
  | nil => rfl
  | cons c2 rest =>
    simp only [normalizeCRLF]
    rw [if_neg]
    intro h
    exact hc h.1

theorem normalizeCRLF_id (l : List Char) (h : '\r' ∉ l) : normalizeCRLF l = l := by
  induction l with
  | nil => rfl
  | cons c rest ih =>
    have hc : c ≠ '\r' := fun e => h (e ▸ List.mem_cons_self c rest)
    rw [normalizeCRLF_cons c rest hc, ih (fun hm => h (List.mem_cons_of_mem _ hm))]

theorem normalizeCRLF_crlf (l : List Char) :
    normalizeCRLF ('\r' :: '\n' :: l) = '\n' :: normalizeCRLF l := by
  simp [normalizeCRLF]

theorem normalizeCRLF_lfToCrlf (l : List Char) (h : '\r' ∉ l) :
    normalizeCRLF (lfToCrlf l) = l := by
  induction l with
  | nil => rfl
  | cons c rest ih =>
    have hrest : '\r' ∉ rest := fun hm => h (List.mem_cons_of_mem _ hm)
    by_cases hc : c = '\n'
    · subst hc
      show normalizeCRLF (if ('\n' : Char) = '\n' then '\r' :: '\n' :: lfToCrlf rest
        else '\n' :: lfToCrlf rest) = '\n' :: rest
      rw [if_pos rfl, normalizeCRLF_crlf, ih hrest]
    · have hcr : c ≠ '\r' := fun e => h (e ▸ List.mem_cons_self c rest)
      show normalizeCRLF (if c = '\n' then '\r' :: '\n' :: lfToCrlf rest
        else c :: lfToCrlf rest) = c :: rest
      rw [if_neg hc, normalizeCRLF_cons c _ hcr, ih hrest]

/-- Claim C4: for every manifest with a module declaration but no
toolchain-version directive, `parseGoMod` succeeds and returns the literal
toolchain version `"unknown"`. -/
theorem parseGoMod_missing_go_directive_unknown (data m : String)
    (hmod : (modfileParse (normalizeCRLF data.toList)).modulePath = some m)
    (hgo : (modfileParse (normalizeCRLF data.toList)).goVersion = none) :
    parseGoMod data = Except.ok (m, "unknown") := by
  simp only [parseGoMod]
  rw [hmod, hgo]

theorem parseGoMod_missing_go_directive_unknown_witness :
    parseGoMod "module example.com/foo\n" = Except.ok ("example.com/foo", "unknown") :=
  parseGoMod_missing_go_directive_unknown "module example.com/foo\n" "example.com/foo"
    (by decide) (by decide)

/-- Claim C5: parsing the CRLF-line-ending version of a manifest yields
exactly the same result as parsing the LF-line-ending equivalent, because
CRLF sequences are normalized to LF before parsing. -/
theorem parseGoMod_crlf_eq_lf (data : String) (h : '\r' ∉ data.toList) :
    parseGoMod (String.mk (lfToCrlf data.toList)) = parseGoMod data := by
  unfold parseGoMod
  rw [toList_mk, normalizeCRLF_lfToCrlf _ h, normalizeCRLF_id _ h]

theorem parseGoMod_crlf_eq_lf_witness :
    parseGoMod (String.mk (lfToCrlf ("module example.com/foo\ngo 1.21").toList)) =
      parseGoMod "module example.com/foo\ngo 1.21" :=
  parseGoMod_crlf_eq_lf "module example.com/foo\ngo 1.21" (by decide)

/-- Claim C6: for every manifest with no module declaration, `parseGoMod`
fails with the missing-module-declaration error and returns no identity. -/
theorem parseGoMod_missing_module_errors (data : String)
    (hmod : (modfileParse (normalizeCRLF data.toList)).modulePath = none) :
    parseGoMod data = Except.error "module declaration not found" := by
  simp only [parseGoMod]
  rw [hmod]

theorem parseGoMod_missing_module_errors_witness :
    parseGoMod "go 1.21\n" = Except.error "module declaration not found" :=
  parseGoMod_missing_module_errors "go 1.21\n" (by decide)

/-- Claim C10: when the captured output of the listing command is empty
(zero JSON values), `getDependencies` succeeds with the empty record list:
the decode loop runs zero times and no decode error is raised. -/
theorem getDependencies_empty_stream (separator : Char) (dir : String) :
    getDependencies true true separator dir [] = Except.ok [] := rfl

/-- Claim C1 (code behavior at the failing input): the decode-loop filter of
`getDependencies` (main.go line 318) checks only the import-path conditions
and never `m.Update != nil`, so a record whose `update` is absent but whose
path is external is INCLUDED in the result set, contradicting the claim that
inclusion requires a present `update` field. -/
theorem getDependencies_keeps_record_without_update :
    getDependencies true true '/' "/tmp/ws"
        [StreamItem.ok ⟨"example.com/bar", "v1.0.0", none⟩] =
      Except.ok [⟨"example.com/bar", "v1.0.0", none⟩] := by rfl

/-- Claim C2 (code behavior at the failing input): when the clone step fails
after workspace acquisition succeeded, `log.Fatalf` exits the process via
`os.Exit(1)` without running the deferred `cleanupTempDir`, so the release
operation does NOT run on that termination path. -/
theorem main_clone_failure_skips_cleanup :
    mainAfterAcquire false true true true true =
      { cleanupRan := false, exitKind := ExitKind.fatalExit } := rfl

/-- Claim C9: on non-Windows platforms `createTempDir` creates a directory
with a unique (fresh-suffix) name under the platform temp root and fails
when the directory cannot be created; on Windows the chosen directory is the
fixed, pre-created `go-dep-analysis` path under the temp root, independent
of any unique suffix, and creation failure is an error there too. -/
theorem createTempDir_spec (tempRoot suf : String) (uniqueSuffix : Option String)
    (b : Bool) :
    createTempDir GOOS.other tempRoot (some suf) b =
        Except.ok (tempRoot ++ "/" ++ "go-dep-analysis" ++ suf) ∧
      createTempDir GOOS.other tempRoot none b =
        Except.error "mkdirtemp: cannot create directory" ∧
      createTempDir GOOS.windows tempRoot uniqueSuffix true =
        Except.ok (tempRoot ++ "\\" ++ "go-dep-analysis") ∧
      (createTempDir GOOS.windows tempRoot uniqueSuffix false).isOk = false :=
  ⟨rfl, rfl, rfl, rfl⟩

/-- Claim C7 (code behavior at the failing input): a traversal error
(permission denied) hitting before any `go.mod` was recorded makes the walk
abort with that error, but `findGoMod` checks `goModPath == ""` FIRST
(main.go line 266) and therefore reports the not-found error, masking the
walk error — contradicting the claim that locate fails with the traversal
error. -/
theorem findGoMod_error_masked_as_not_found :
    walk "r" errTree = ("", WalkRes.fail "permission denied") ∧
      findGoMod "r" errTree = Except.error "could not find go.mod in r" := by
  exact ⟨rfl, rfl⟩

theorem printDeps_filterMap (deps : List ModuleInfo) :
    printDeps deps = deps.filterMap (fun dep => dep.update.map (formatDepLine dep)) := by
  induction deps with
  | nil => rfl
  | cons d rest ih =>
    cases hu : d.update with
    | none => simp [printDeps, List.filterMap_cons, hu, ih]
    | some u => simp [printDeps, List.filterMap_cons, hu, ih]

/-- Claim C8: `printResults` writes the module name and toolchain version as
two lines, then for a non-empty record sequence a header line followed by
exactly one formatted line per record with a present update (absent updates
skipped), and for an empty sequence the single up-to-date line — i.e. it
coincides with the spec-side `renderSpec`. -/
theorem printResults_matches_render_spec (moduleName goVersion : String)
    (deps : List ModuleInfo) :
    printResults moduleName goVersion deps = renderSpec moduleName goVersion deps := by
  cases deps with
  | nil => rfl
  | cons d rest =>
    simp [printResults, renderSpec, printDeps_filterMap]

theorem lastD_append (a b : List String) (d : String) :
    lastD (a ++ b) d = lastD b (lastD a d) := by
  induction a generalizing d with
  | nil => rfl
  | cons x xs ih => simp [lastD, ih]

theorem lastD_mem (l : List String) (d : String) (h : l ≠ []) : lastD l d ∈ l := by
  induction l generalizing d with
  | nil => exact absurd rfl h
  | cons x xs ih =>
    cases xs with
    | nil => simp [lastD]
    | cons y ys =>
      show lastD (y :: ys) x ∈ x :: y :: ys
      exact List.mem_cons_of_mem _ (ih x (by simp))

mutual
theorem walkNode_spec (node : FsNode) (path gmp : String) (h : errFree node = true) :
    (walkNode path node gmp).1 = lastD (nodeMatches path node) gmp ∧
      resOk (walkNode path node gmp).2 = true :=
  match node with
  | FsNode.file name => by
      by_cases hn : name = "go.mod"
      · simp [walkNode, nodeMatches, hn, lastD, resOk]
      · simp [walkNode, nodeMatches, hn, lastD, resOk]
  | FsNode.errEntry n m => by simp [errFree] at h
  | FsNode.dir n cs => by
      have h2 := walkList_spec cs path gmp (by simpa [errFree] using h)
      simpa [walkNode, nodeMatches] using h2

theorem walkList_spec (cs : FsList) (dirPath gmp : String) (h : errFreeList cs = true) :
    (walkChildren dirPath cs gmp).1 = lastD (listMatches dirPath cs) gmp ∧
      resOk (walkChildren dirPath cs gmp).2 = true :=
  match cs with
  | FsList.nil => by simp [walkChildren, listMatches, lastD, resOk]
  | FsList.cons c rest => by
      have hc : errFree c = true := by
        have h3 := h
        simp [errFreeList] at h3
        exact h3.1
      have hrest : errFreeList rest = true := by
        have h3 := h
        simp [errFreeList] at h3
        exact h3.2
      cases c with
      | errEntry n m => simp [errFree] at hc
      | file name =>
        by_cases hn : name = "go.mod"
        · subst hn
          simp [walkChildren, walkNode, fsName, listMatches, lastD, resOk]
        · have h1 := walkList_spec rest dirPath gmp hrest
          simpa [walkChildren, walkNode, fsName, hn, listMatches] using h1
      | dir n cs2 =>
        have hcs2 : errFreeList cs2 = true := by simpa [errFree] using hc
        have h2 := walkList_spec cs2 (dirPath ++ "/" ++ n) gmp hcs2
        rcases hres : walkChildren (dirPath ++ "/" ++ n) cs2 gmp with ⟨g2, r2⟩
        rw [hres] at h2
        have hg2 : g2 = lastD (listMatches (dirPath ++ "/" ++ n) cs2) gmp := h2.1
        cases r2 with
        | fail m => simp [resOk] at h2
        | done =>
          have h3 := walkList_spec rest dirPath g2 hrest
          simp only [walkChildren, walkNode, fsName]
          rw [hres]
          simp only [listMatches, lastD_append, ← hg2]
          exact h3
        | skip =>
          have h3 := walkList_spec rest dirPath g2 hrest
          simp only [walkChildren, walkNode, fsName]
          rw [hres]
          simp only [listMatches, lastD_append, ← hg2]
          exact h3
end

mutual
theorem nodeMatches_pos (node : FsNode) (path : String) (hp : 0 < path.length) :
    ∀ p ∈ nodeMatches path node, 0 < p.length :=
  match node with
  | FsNode.file name => by
      intro p hpmem
      by_cases hn : name = "go.mod"
      · simp [nodeMatches, hn] at hpmem
        subst hpmem
        exact hp
      · simp [nodeMatches, hn] at hpmem
  | FsNode.errEntry n m => by
      intro p hpmem
      simp [nodeMatches] at hpmem
  | FsNode.dir n cs => by
      intro p hpmem
      simp only [nodeMatches] at hpmem
      exact listMatches_pos cs path p hpmem

theorem listMatches_pos (cs : FsList) (dirPath : String) :
    ∀ p ∈ listMatches dirPath cs, 0 < p.length :=
  match cs with
  | FsList.nil => by
      intro p hpmem
      simp [listMatches] at hpmem
  | FsList.cons c rest => by
      intro p hpmem
      cases c with
      | file name =>
        by_cases hn : name = "go.mod"
        · simp [listMatches, hn] at hpmem
          subst hpmem
          have hslash : ("/" : String).length = 1 := rfl
          simp only [String.length_append, hslash]
          omega
        · simp [listMatches, hn] at hpmem
          exact listMatches_pos rest dirPath p hpmem
      | errEntry nn mm =>
        simp [listMatches] at hpmem
        exact listMatches_pos rest dirPath p hpmem
      | dir n cs2 =>
        simp [listMatches] at hpmem
        cases hpmem with
        | inl h1 => exact listMatches_pos cs2 (dirPath ++ "/" ++ n) p h1
        | inr h2 => exact listMatches_pos rest dirPath p h2
end

/-- Claim C3 (counterexample): in `cexTree` the first `go.mod` encountered in
traversal order is `r/a/go.mod` (the match sequence is
`["r/a/go.mod", "r/go.mod"]`), yet `findGoMod` returns the later match
`r/go.mod`: a match found later in the traversal replaced the earlier one,
refuting the claim as stated. -/
theorem findGoMod_not_first_match :
    nodeMatches "r" cexTree = ["r/a/go.mod", "r/go.mod"] ∧
      findGoMod "r" cexTree = Except.ok "r/go.mod" ∧
      ("r/go.mod" : String) ≠ "r/a/go.mod" :=
  ⟨rfl, rfl, by decide⟩

/-- Claim C3 (amended): for every error-free directory tree containing at
least one file named `go.mod`, `findGoMod` succeeds and returns the path of
the LAST such file encountered in the (deterministic, `SkipDir`-pruned)
traversal order — each later match replaces the earlier one, and after a
match the remaining entries of its containing directory are skipped. -/
theorem findGoMod_returns_last_match (root : String) (tree : FsNode)
    (hroot : 0 < root.length) (hfree : errFree tree = true)
    (hne : nodeMatches root tree ≠ []) :
    findGoMod root tree = Except.ok (lastD (nodeMatches root tree) "") := by
  have hspec := walkNode_spec tree root "" hfree
  rcases hw : walkNode root tree "" with ⟨g, r⟩
  rw [hw] at hspec
  have hg : g = lastD (nodeMatches root tree) "" := hspec.1
  have hmem : lastD (nodeMatches root tree) "" ∈ nodeMatches root tree :=
    lastD_mem _ "" hne
  have hpos : 0 < (lastD (nodeMatches root tree) "").length :=
    nodeMatches_pos tree root hroot _ hmem
  have hgne : ¬ g = "" := by
    rw [hg]
    intro e
    rw [e] at hpos
    simp at hpos
  cases r with
  | fail m => simp [resOk] at hspec
  | done =>
    simp only [findGoMod, walk, hw]
    rw [if_neg hgne, hg]
  | skip =>
    simp only [findGoMod, walk, hw]
    rw [if_neg hgne, hg]

theorem findGoMod_returns_last_match_witness :
    findGoMod "r" cexTree = Except.ok (lastD (nodeMatches "r" cexTree) "") :=
  findGoMod_returns_last_match "r" cexTree (by decide) (by rfl) (by decide)
